import Mathlib

/- Shallow embedding of the course-block field extractor of src/course.py.
   Strings are modelled as lists of characters.  The Python regular
   expressions used by parse_course_block are modelled by hand-rolled,
   executable matching functions that reproduce the exact matching
   behaviour of the original patterns on text (the character classes
   for whitespace, digits and letters with IGNORECASE are taken in
   their ASCII meaning). -/

/- Python whitespace class (ASCII part), used both by the regex
   whitespace class and by str.strip in clean_text. -/
def pySpace (c : Char) : Bool :=
  c == ' ' || c == '\t' || c == '\n' || c == '\r' || c == '\x0b' || c == '\x0c'

/- Case-insensitive character comparison, as re.IGNORECASE on ASCII. -/
def charIEq (a b : Char) : Bool := a.toLower == b.toLower

/- Does the text start with the pattern, case-insensitively? -/
def startsWithCI : List Char → List Char → Bool
  | _, [] => true
  | [], _ :: _ => false
  | c :: l, b :: p => charIEq c b && startsWithCI l p

/- Consume a case-insensitive literal pattern from the front of the text,
   returning the rest, or none if the pattern is not a prefix. -/
def dropPrefixCI : List Char → List Char → Option (List Char)
  | [], l => some l
  | _ :: _, [] => none
  | b :: p, c :: l => if charIEq c b then dropPrefixCI p l else none

/- Lazy capture: the text before the first case-insensitive occurrence of
   stop; none when stop never occurs.  Models a lazy group followed by a
   mandatory literal, as in the Credit Hours and Objective patterns. -/
def captureUntilCI (stop : List Char) : List Char → Option (List Char)
  | [] => none
  | c :: rest =>
    if startsWithCI (c :: rest) stop then some []
    else (captureUntilCI stop rest).map (fun t => c :: t)

/- Lazy capture bounded by the first case-insensitive occurrence of stop
   or by the end of the text.  Models a lazy group followed by an
   alternation of a literal with the end anchor, as in the Prerequisite
   and Outcomes patterns. -/
def captureUntilCIOrEnd (stop : List Char) : List Char → List Char
  | [] => []
  | c :: rest =>
    if startsWithCI (c :: rest) stop then []
    else c :: captureUntilCIOrEnd stop rest

/- Is there a case-insensitive occurrence of the pattern anywhere? -/
def hasSubstrCI (stop : List Char) : List Char → Bool
  | [] => startsWithCI [] stop
  | c :: rest => startsWithCI (c :: rest) stop || hasSubstrCI stop rest

/- re.search: try a match at every start position, left to right, and
   return the first success. -/
def searchFirst (f : List Char → Option (List Char)) : List Char → Option (List Char)
  | [] => f []
  | c :: rest =>
    match f (c :: rest) with
    | some r => some r
    | none => searchFirst f rest

/- re.sub of one or more whitespace characters by a single space
   (the substitution step of clean_text, src/course.py line 12).  The
   flag records whether the scan is inside a whitespace run whose
   single replacement space has already been emitted. -/
def collapseAux : Bool → List Char → List Char
  | _, [] => []
  | inRun, c :: rest =>
    if pySpace c then
      if inRun then collapseAux true rest
      else ' ' :: collapseAux true rest
    else c :: collapseAux false rest

def collapseWS (l : List Char) : List Char := collapseAux false l

/- str.strip: remove leading and trailing whitespace. -/
def stripWS (l : List Char) : List Char :=
  ((l.dropWhile pySpace).reverse.dropWhile pySpace).reverse

/- clean_text, src/course.py lines 7-12: collapse whitespace runs to a
   single space, then strip.  On the empty string both the early return
   and the pipeline give the empty string. -/
def clean_text (l : List Char) : List Char := stripWS (collapseWS l)

/- Start of an uppercase CO token followed by a digit, as matched
   case-sensitively by the findall lookahead of line 83. -/
def isCOStart : List Char → Bool
  | a :: b :: c :: _ => a == 'C' && b == 'O' && c.isDigit
  | _ => false

/- Does a CO token start anywhere in the text? -/
def hasCOtoken : List Char → Bool
  | [] => false
  | c :: rest => isCOStart (c :: rest) || hasCOtoken rest

/- Split at the first CO token start: lazily captured description text
   and the remaining text from the token on. -/
def splitAtCO : List Char → List Char × List Char
  | [] => ([], [])
  | c :: rest =>
    if isCOStart (c :: rest) then ([], c :: rest)
    else ((c :: (splitAtCO rest).1), (splitAtCO rest).2)

/- One match attempt of the outcome pattern of line 83 at the current
   position: uppercase CO, one or more digits, one or more whitespace
   characters, then a lazy description bounded by the lookahead for the
   next CO token or the end.  Returns the code group, the description
   group and the text after the match end. -/
def outcomeMatchAt (l : List Char) : Option (List Char × List Char × List Char) :=
  match l with
  | a :: b :: rest =>
    if a = 'C' ∧ b = 'O' then
      let ds := rest.takeWhile Char.isDigit
      if ds.isEmpty then none
      else
        let r3 := (rest.dropWhile Char.isDigit).dropWhile pySpace
        if ((rest.dropWhile Char.isDigit).takeWhile pySpace).isEmpty then none
        else some ('C' :: 'O' :: ds, (splitAtCO r3).1, (splitAtCO r3).2)
    else none
  | _ => none

/- re.findall of the outcome pattern: repeatedly search left to right,
   continuing after each match end.  Every step, a failed attempt as
   well as a match, consumes at least one character, so fuel equal to
   the length of the text is enough; findAllAux is structural in the
   fuel so that the kernel can evaluate it. -/
def findAllAux : Nat → List Char → List (List Char × List Char)
  | 0, _ => []
  | _ + 1, [] => []
  | fuel + 1, c :: rest =>
    match outcomeMatchAt (c :: rest) with
    | some t => (t.1, t.2.1) :: findAllAux fuel t.2.2
    | none => findAllAux fuel rest

def findAllOutcomes (l : List Char) : List (List Char × List Char) :=
  findAllAux l.length l

/- The header pattern of line 41, anchored at the start of the first
   line: three letters (IGNORECASE makes the uppercase class match both
   cases), one or more digits, optional whitespace, then the rest of the
   line as the title group. -/
def headerMatch (fl : List Char) : Option (List Char × List Char) :=
  match fl with
  | a :: b :: c :: r1 =>
    if a.isAlpha && b.isAlpha && c.isAlpha then
      let ds := r1.takeWhile Char.isDigit
      if ds.isEmpty then none
      else some (a :: b :: c :: ds, (r1.dropWhile Char.isDigit).dropWhile pySpace)
    else none
  | _ => none

/- Optional whitespace, an optional colon or hyphen separator, then
   optional whitespace, as in the separator part of the Prerequisite,
   Objective and Contents patterns. -/
def sepSkip (l : List Char) : List Char :=
  match l.dropWhile pySpace with
  | ':' :: t => t.dropWhile pySpace
  | '-' :: t => t.dropWhile pySpace
  | r => r

/- Match attempt of the Credit Hours pattern of line 54 at the current
   position: the literal label, optional whitespace, a colon, optional
   whitespace, then a lazy capture that must be closed by a
   Prerequisite occurrence. -/
def m2At (l : List Char) : Option (List Char) :=
  match dropPrefixCI ("Credit Hours and Teaching Scheme").data l with
  | none => none
  | some r1 =>
    match r1.dropWhile pySpace with
    | ':' :: r2 => captureUntilCI ("Prerequisite").data (r2.dropWhile pySpace)
    | _ => none

/- Match attempt of the credit-hours pattern of line 60. -/
def creditAt (l : List Char) : Option (List Char) :=
  match dropPrefixCI ("Credit hours").data l with
  | none => none
  | some r1 =>
    let ds := (r1.dropWhile pySpace).takeWhile Char.isDigit
    if ds.isEmpty then none else some ds

/- Match attempt of the Prerequisite pattern of line 66 at the current
   position: the capture is bounded by a Course Objective occurrence or
   by the end of the text, so the attempt succeeds whenever the label
   is a prefix here. -/
def m3At (l : List Char) : Option (List Char) :=
  match dropPrefixCI ("Prerequisite").data l with
  | none => none
  | some r1 => some (captureUntilCIOrEnd ("Course Objective").data (sepSkip r1))

/- Match attempt of the Course Objective pattern of line 72: the lazy
   capture must be closed by a Course Outcomes occurrence. -/
def m4At (l : List Char) : Option (List Char) :=
  match dropPrefixCI ("Course Objective").data l with
  | none => none
  | some r1 => captureUntilCI ("Course Outcomes").data (sepSkip r1)

/- Match attempt of the Course Outcomes pattern of line 78: the label,
   optional whitespace, the literal parenthesised COs, optional
   whitespace and a colon; the capture is bounded by Course Contents or
   the end of the text. -/
def m5At (l : List Char) : Option (List Char) :=
  match dropPrefixCI ("Course Outcomes").data l with
  | none => none
  | some r1 =>
    match r1.dropWhile pySpace with
    | '(' :: r2 =>
      match dropPrefixCI ("COs").data r2 with
      | none => none
      | some r3 =>
        match r3 with
        | ')' :: r4 =>
          match r4.dropWhile pySpace with
          | ':' :: r5 => some (captureUntilCIOrEnd ("Course Contents").data r5)
          | _ => none
        | _ => none
    | _ => none

/- Match attempt of the Course Contents pattern of line 90: a greedy
   capture of everything after the label and separator. -/
def m6At (l : List Char) : Option (List Char) :=
  match dropPrefixCI ("Course Contents").data l with
  | none => none
  | some r1 => some (sepSkip r1)

/- One parsed outcome entry, line 86. -/
structure Outcome where
  code : List Char
  description : List Char
deriving DecidableEq

/- The result record of parse_course_block, lines 18-27.  Python stores
   credit_hours as the digit string of the match group. -/
structure CourseRecord where
  code : Option (List Char)
  title : Option (List Char)
  credit_hours : Option (List Char)
  teaching_scheme : Option (List Char)
  prerequisite : Option (List Char)
  objective : Option (List Char)
  outcomes : List Outcome
  contents : Option (List Char)
deriving DecidableEq

/- Line 38: the first line of the block. -/
def firstLine (block : List Char) : List Char :=
  block.takeWhile (fun c => c != '\n')

/- Line 50: newlines are replaced by spaces before the section
   searches. -/
def searchText (block : List Char) : List Char :=
  block.map (fun c => if c = '\n' then ' ' else c)

/- Lines 42-44: the code field from the header match. -/
def headerCode (fl : List Char) : Option (List Char) :=
  match headerMatch fl with
  | some g => some (stripWS g.1)
  | none => none

/- Lines 42-47: the title field, with the fallback of line 47. -/
def headerTitle (fl : List Char) : Option (List Char) :=
  match headerMatch fl with
  | some g => some (clean_text (stripWS g.2))
  | none => some (clean_text fl)

/- Lines 54-57. -/
def schemeField (st : List Char) : Option (List Char) :=
  (searchFirst m2At st).map clean_text

/- Lines 54-62: the credit-hours search runs inside the cleaned scheme
   text and only when the scheme pattern matched. -/
def creditField (st : List Char) : Option (List Char) :=
  match searchFirst m2At st with
  | some g =>
    match searchFirst creditAt (clean_text g) with
    | some ds => some (stripWS ds)
    | none => none
  | none => none

/- Lines 66-68. -/
def prereqField (st : List Char) : Option (List Char) :=
  (searchFirst m3At st).map clean_text

/- Lines 72-74. -/
def objectiveField (st : List Char) : Option (List Char) :=
  (searchFirst m4At st).map clean_text

/- Lines 78-86. -/
def outcomesField (st : List Char) : List Outcome :=
  match searchFirst m5At st with
  | some g =>
    (findAllOutcomes g).map (fun p => { code := stripWS p.1, description := clean_text p.2 })
  | none => []

/- Lines 90-92. -/
def contentsField (st : List Char) : Option (List Char) :=
  (searchFirst m6At st).map clean_text

/- parse_course_block, src/course.py lines 14-94, on string input.
   The Python function fills the fields of the result dictionary by
   independent searches over the first line and over the newline-free
   search text; the record below collects exactly those fields. -/
def parse_course_block (block : List Char) : CourseRecord :=
  { code := headerCode (firstLine block)
  , title := headerTitle (firstLine block)
  , credit_hours := creditField (searchText block)
  , teaching_scheme := schemeField (searchText block)
  , prerequisite := prereqField (searchText block)
  , objective := objectiveField (searchText block)
  , outcomes := outcomesField (searchText block)
  , contents := contentsField (searchText block) }

/- Is the first character, if any, not whitespace? -/
def headNotWS : List Char → Bool
  | [] => true
  | c :: _ => !pySpace c

/- Is the last character, if any, not whitespace? -/
def lastNotWS : List Char → Bool
  | [] => true
  | [c] => !pySpace c
  | _ :: c :: rest => lastNotWS (c :: rest)

/- No two adjacent whitespace characters. -/
def noAdjWS : List Char → Bool
  | a :: b :: rest => !(pySpace a && pySpace b) && noAdjWS (b :: rest)
  | _ => true

/- Every whitespace character is a plain space. -/
def wsOnlySpaces (l : List Char) : Bool :=
  l.all (fun c => !pySpace c || c == ' ')

/- Whitespace-normalized text as described by the spec: no whitespace
   other than single spaces, none of them leading or trailing. -/
def normalizedStr (l : List Char) : Bool :=
  wsOnlySpaces l && noAdjWS l && headNotWS l && lastNotWS l

def optNormalized : Option (List Char) → Bool
  | none => true
  | some s => normalizedStr s && (clean_text s == s)

/- All text fields of a record are whitespace-normalized and fixpoints
   of clean_text (the code and credit_hours fields are digit and code
   tokens, not free-text fields). -/
def recordNormalized (r : CourseRecord) : Bool :=
  optNormalized r.title && optNormalized r.teaching_scheme &&
  optNormalized r.prerequisite && optNormalized r.objective &&
  optNormalized r.contents &&
  r.outcomes.all (fun o => normalizedStr o.description && (clean_text o.description == o.description))

/- A well-formed outcome entry of a captured outcomes span: digits of
   the CO code, the whitespace after the code, and the description text
   that runs up to the next CO token or the end of the span. -/
structure COEntry where
  digits : List Char
  wsp : List Char
  txt : List Char
deriving DecidableEq

def COEntry.chars (e : COEntry) : List Char :=
  'C' :: 'O' :: (e.digits ++ e.wsp ++ e.txt)

def COEntry.wf (e : COEntry) : Bool :=
  !e.digits.isEmpty && e.digits.all Char.isDigit &&
  !e.wsp.isEmpty && e.wsp.all pySpace &&
  !hasCOtoken e.txt && headNotWS e.txt

/- The concatenated text of a list of outcome entries. -/
def coSpan : List COEntry → List Char
  | [] => []
  | e :: es => e.chars ++ coSpan es

/- A case-insensitive Course Objective label occurrence followed, after
   the end of the label, by a case-insensitive Course Outcomes
   occurrence somewhere in the text. -/
def labelThenOutcomes : List Char → Bool
  | [] => false
  | c :: rest =>
    (match dropPrefixCI ("Course Objective").data (c :: rest) with
     | some r1 => hasSubstrCI ("Course Outcomes").data r1
     | none => false) || labelThenOutcomes rest

/- A case-insensitive Credit Hours and Teaching Scheme label occurrence
   followed by optional whitespace and a colon, with a case-insensitive
   Prerequisite occurrence somewhere after the colon. -/
def schemeThenPrereq : List Char → Bool
  | [] => false
  | c :: rest =>
    (match dropPrefixCI ("Credit Hours and Teaching Scheme").data (c :: rest) with
     | some r1 =>
       match r1.dropWhile pySpace with
       | ':' :: r2 => hasSubstrCI ("Prerequisite").data r2
       | _ => false
     | none => false) || schemeThenPrereq rest

/- A course-code shaped token as the header regex of line 41 sees it:
   three letters of either case followed by at least one digit. -/
def codeTokenAt : List Char → Bool
  | a :: b :: c :: d :: _ => a.isAlpha && b.isAlpha && c.isAlpha && d.isDigit
  | _ => false

def hasCodeToken : List Char → Bool
  | [] => false
  | c :: rest => codeTokenAt (c :: rest) || hasCodeToken rest

/- A token of the shape three uppercase letters followed by two to four
   digits, the shape named by the spec for the code field. -/
def upperTokenAt : List Char → Bool
  | a :: b :: c :: rest =>
    a.isUpper && b.isUpper && c.isUpper && decide (2 ≤ (rest.takeWhile Char.isDigit).length)
  | _ => false

def hasUpperToken : List Char → Bool
  | [] => false
  | c :: rest => upperTokenAt (c :: rest) || hasUpperToken rest

/- ------------------------------------------------------------------
   Helper lemmas about whitespace scanning and normalization.
   ------------------------------------------------------------------ -/

theorem dropWhile_of_headNotWS {l : List Char} (h : headNotWS l = true) :
    l.dropWhile pySpace = l := by
  cases l with
  | nil => rfl
  | cons c rest =>
    simp only [headNotWS, Bool.not_eq_true'] at h
    simp [List.dropWhile_cons, h]

theorem headNotWS_dropWhile (l : List Char) : headNotWS (l.dropWhile pySpace) = true := by
  induction l with
  | nil => rfl
  | cons c rest ih =>
    by_cases h : pySpace c = true
    · simpa [List.dropWhile_cons, h] using ih
    · simp [List.dropWhile_cons, h, headNotWS]

theorem lastNotWS_snoc (l : List Char) (c : Char) : lastNotWS (l ++ [c]) = !pySpace c := by
  induction l with
  | nil => rfl
  | cons a l ih =>
    cases l with
    | nil => simp [lastNotWS]
    | cons b l2 => simpa [lastNotWS] using ih

theorem lastNotWS_reverse (l : List Char) : lastNotWS l.reverse = headNotWS l := by
  cases l with
  | nil => rfl
  | cons c rest => simp [List.reverse_cons, lastNotWS_snoc, headNotWS]

theorem headNotWS_reverse (l : List Char) : headNotWS l.reverse = lastNotWS l := by
  have h := lastNotWS_reverse l.reverse
  rw [List.reverse_reverse] at h
  exact h.symm

theorem noAdjWS_cons (c : Char) (l : List Char) :
    noAdjWS (c :: l) = ((!pySpace c || headNotWS l) && noAdjWS l) := by
  cases l with
  | nil => simp [noAdjWS, headNotWS]
  | cons b rest => simp [noAdjWS, headNotWS, Bool.not_and]

theorem noAdjWS_snoc (l : List Char) (c : Char) :
    noAdjWS (l ++ [c]) = (noAdjWS l && (lastNotWS l || !pySpace c)) := by
  induction l with
  | nil => simp [noAdjWS, lastNotWS]
  | cons a l ih =>
    cases l with
    | nil => simp [noAdjWS, lastNotWS]
    | cons b l2 =>
      have hgoal : (a :: b :: l2) ++ [c] = a :: ((b :: l2) ++ [c]) := rfl
      have h1 : noAdjWS (a :: ((b :: l2) ++ [c])) =
          (!(pySpace a && pySpace b) && noAdjWS ((b :: l2) ++ [c])) := rfl
      have h2 : noAdjWS (a :: b :: l2) = (!(pySpace a && pySpace b) && noAdjWS (b :: l2)) := rfl
      have h3 : lastNotWS (a :: b :: l2) = lastNotWS (b :: l2) := rfl
      rw [hgoal, h1, ih, h2, h3, Bool.and_assoc]

theorem noAdjWS_reverse (l : List Char) : noAdjWS l.reverse = noAdjWS l := by
  induction l with
  | nil => rfl
  | cons c rest ih =>
    rw [List.reverse_cons, noAdjWS_snoc, ih, lastNotWS_reverse, noAdjWS_cons]
    simp [Bool.and_comm, Bool.or_comm]

theorem noAdjWS_tail {c : Char} {l : List Char} (h : noAdjWS (c :: l) = true) :
    noAdjWS l = true := by
  rw [noAdjWS_cons, Bool.and_eq_true] at h
  exact h.2

theorem noAdjWS_dropWhile {l : List Char} (h : noAdjWS l = true) :
    noAdjWS (l.dropWhile pySpace) = true := by
  induction l with
  | nil => simpa using h
  | cons c rest ih =>
    by_cases hc : pySpace c = true
    · simp only [List.dropWhile_cons, hc, if_true]
      exact ih (noAdjWS_tail h)
    · simp only [List.dropWhile_cons, hc, if_false, Bool.false_eq_true, ite_false]
      exact h

theorem all_dropWhile {p q : Char → Bool} {l : List Char} (h : l.all p = true) :
    (l.dropWhile q).all p = true := by
  induction l with
  | nil => exact h
  | cons c rest ih =>
    rw [List.all_cons, Bool.and_eq_true] at h
    by_cases hc : q c = true
    · simp only [List.dropWhile_cons, hc, if_true]
      exact ih h.2
    · simp [List.dropWhile_cons, hc, List.all_cons, h.1, h.2]

theorem all_reverse_eq {p : Char → Bool} (l : List Char) : l.reverse.all p = l.all p := by
  induction l with
  | nil => rfl
  | cons c rest ih => simp [List.reverse_cons, List.all_append, List.all_cons, ih, Bool.and_comm]

theorem wsOnly_cons (c : Char) (l : List Char) :
    wsOnlySpaces (c :: l) = ((!pySpace c || c == ' ') && wsOnlySpaces l) := rfl

theorem collapseAux_wsOnly (b : Bool) (l : List Char) :
    wsOnlySpaces (collapseAux b l) = true := by
  induction l generalizing b with
  | nil => rfl
  | cons c rest ih =>
    by_cases hc : pySpace c = true
    · cases b with
      | true => simpa [collapseAux, hc] using ih true
      | false =>
        have hstep : collapseAux false (c :: rest) = ' ' :: collapseAux true rest := by
          simp [collapseAux, hc]
        rw [hstep, wsOnly_cons]
        simp [ih true]
    · have hstep : collapseAux b (c :: rest) = c :: collapseAux false rest := by
        simp [collapseAux, hc]
      rw [hstep, wsOnly_cons]
      simp [hc, ih false]

theorem collapseAux_headNotWS_true (l : List Char) :
    headNotWS (collapseAux true l) = true := by
  induction l with
  | nil => rfl
  | cons c rest ih =>
    by_cases hc : pySpace c = true
    · simpa [collapseAux, hc] using ih
    · simp [collapseAux, hc, headNotWS]

theorem collapseAux_noAdj (b : Bool) (l : List Char) :
    noAdjWS (collapseAux b l) = true := by
  induction l generalizing b with
  | nil => rfl
  | cons c rest ih =>
    by_cases hc : pySpace c = true
    · cases b with
      | true => simpa [collapseAux, hc] using ih true
      | false =>
        have hstep : collapseAux false (c :: rest) = ' ' :: collapseAux true rest := by
          simp [collapseAux, hc]
        rw [hstep, noAdjWS_cons]
        simp [collapseAux_headNotWS_true, ih true]
    · have hstep : collapseAux b (c :: rest) = c :: collapseAux false rest := by
        simp [collapseAux, hc]
      rw [hstep, noAdjWS_cons]
      simp [hc, ih false]

theorem collapseAux_eq_self {l : List Char} (h1 : wsOnlySpaces l = true)
    (h2 : noAdjWS l = true) :
    collapseAux false l = l ∧ (headNotWS l = true → collapseAux true l = l) := by
  induction l with
  | nil => exact ⟨rfl, fun _ => rfl⟩
  | cons c rest ih =>
    rw [wsOnly_cons, Bool.and_eq_true] at h1
    rw [noAdjWS_cons, Bool.and_eq_true] at h2
    have ih2 := ih h1.2 h2.2
    by_cases hc : pySpace c = true
    · have hcsp : c = ' ' := by
        have h3 := h1.1
        rw [hc] at h3
        simpa using h3
      have hrest : headNotWS rest = true := by
        have h3 := h2.1
        rw [hc] at h3
        simpa using h3
      constructor
      · have hstep : collapseAux false (c :: rest) = ' ' :: collapseAux true rest := by
          simp [collapseAux, hc]
        rw [hstep, ih2.2 hrest, hcsp]
      · intro hh
        simp [headNotWS, hc] at hh
    · have hstep : ∀ b2 : Bool, collapseAux b2 (c :: rest) = c :: collapseAux false rest := by
        intro b2
        simp [collapseAux, hc]
      constructor
      · rw [hstep false, ih2.1]
      · intro _
        rw [hstep true, ih2.1]

theorem stripWS_eq_self {l : List Char} (hh : headNotWS l = true) (hl : lastNotWS l = true) :
    stripWS l = l := by
  unfold stripWS
  rw [dropWhile_of_headNotWS hh]
  rw [dropWhile_of_headNotWS (by rw [headNotWS_reverse]; exact hl)]
  exact List.reverse_reverse l

theorem clean_text_eq_self {l : List Char} (h : normalizedStr l = true) : clean_text l = l := by
  simp only [normalizedStr, Bool.and_eq_true] at h
  obtain ⟨⟨⟨hw, ha⟩, hh⟩, hl⟩ := h
  unfold clean_text collapseWS
  rw [(collapseAux_eq_self hw ha).1]
  exact stripWS_eq_self hh hl

theorem headNotWS_of_append {x t : List Char} (h : headNotWS (x ++ t) = true) :
    headNotWS x = true := by
  cases x with
  | nil => rfl
  | cons c rest => exact h

theorem normalizedStr_clean (s : List Char) : normalizedStr (clean_text s) = true := by
  have hw : wsOnlySpaces (collapseWS s) = true := collapseAux_wsOnly false s
  have ha : noAdjWS (collapseWS s) = true := collapseAux_noAdj false s
  have hwd : wsOnlySpaces ((collapseWS s).dropWhile pySpace) = true := all_dropWhile hw
  have had : noAdjWS ((collapseWS s).dropWhile pySpace) = true := noAdjWS_dropWhile ha
  have hhd : headNotWS ((collapseWS s).dropWhile pySpace) = true := headNotWS_dropWhile _
  show normalizedStr ((((collapseWS s).dropWhile pySpace).reverse.dropWhile pySpace).reverse) = true
  simp only [normalizedStr, Bool.and_eq_true]
  refine ⟨⟨⟨?_, ?_⟩, ?_⟩, ?_⟩
  · unfold wsOnlySpaces
    rw [all_reverse_eq]
    have hrev : ((collapseWS s).dropWhile pySpace).reverse.all (fun c => !pySpace c || c == ' ') = true := by
      rw [all_reverse_eq]
      exact hwd
    exact all_dropWhile hrev
  · rw [noAdjWS_reverse]
    refine noAdjWS_dropWhile ?_
    rw [noAdjWS_reverse]
    exact had
  · have hsp : (((collapseWS s).dropWhile pySpace).reverse.takeWhile pySpace ++
        ((collapseWS s).dropWhile pySpace).reverse.dropWhile pySpace).reverse =
        (collapseWS s).dropWhile pySpace := by
      rw [List.takeWhile_append_dropWhile, List.reverse_reverse]
    rw [List.reverse_append] at hsp
    rw [← hsp] at hhd
    exact headNotWS_of_append hhd
  · rw [lastNotWS_reverse]
    exact headNotWS_dropWhile _

theorem clean_text_idem (s : List Char) : clean_text (clean_text s) = clean_text s :=
  clean_text_eq_self (normalizedStr_clean s)

theorem optNormalized_map_clean (o : Option (List Char)) :
    optNormalized (o.map clean_text) = true := by
  cases o with
  | none => rfl
  | some s => simp [optNormalized, normalizedStr_clean, clean_text_idem]

/-- C6: for every input string, every populated free-text field of the
record returned by parse_course_block (title, teaching_scheme,
prerequisite, objective, contents and every outcome description) is
whitespace-normalized: all whitespace in it is single interior spaces,
and the field is a fixpoint of the clean_text normalization. -/
theorem c6_normalized (block : List Char) :
    recordNormalized (parse_course_block block) = true := by
  have htitle : optNormalized (headerTitle (firstLine block)) = true := by
    unfold headerTitle
    cases headerMatch (firstLine block) with
    | none => simp [optNormalized, normalizedStr_clean, clean_text_idem]
    | some g => simp [optNormalized, normalizedStr_clean, clean_text_idem]
  have h2 : optNormalized (schemeField (searchText block)) = true :=
    optNormalized_map_clean _
  have h3 : optNormalized (prereqField (searchText block)) = true :=
    optNormalized_map_clean _
  have h4 : optNormalized (objectiveField (searchText block)) = true :=
    optNormalized_map_clean _
  have h5 : optNormalized (contentsField (searchText block)) = true :=
    optNormalized_map_clean _
  have houtc : (outcomesField (searchText block)).all
      (fun o => normalizedStr o.description && (clean_text o.description == o.description)) = true := by
    unfold outcomesField
    cases searchFirst m5At (searchText block) with
    | none => rfl
    | some g =>
      simp only [List.all_eq_true]
      intro o ho
      rw [List.mem_map] at ho
      obtain ⟨p, hp, rfl⟩ := ho
      simp [normalizedStr_clean, clean_text_idem]
  simp only [recordNormalized, parse_course_block]
  rw [htitle, h2, h3, h4, h5, houtc]
  rfl

/-- C5: parse_course_block is a total function (the embedding returns a
record for every input and can raise no exception), and every extraction
pass whose pattern does not match leaves its own field at the default,
None for the scalar fields and the empty list for outcomes, while the
other fields are computed independently of it. -/
theorem c5_soft_failure (block : List Char) :
    (headerMatch (firstLine block) = none → (parse_course_block block).code = none) ∧
    (searchFirst m2At (searchText block) = none →
      (parse_course_block block).teaching_scheme = none ∧
      (parse_course_block block).credit_hours = none) ∧
    (∀ g, searchFirst m2At (searchText block) = some g →
      searchFirst creditAt (clean_text g) = none →
      (parse_course_block block).credit_hours = none) ∧
    (searchFirst m3At (searchText block) = none → (parse_course_block block).prerequisite = none) ∧
    (searchFirst m4At (searchText block) = none → (parse_course_block block).objective = none) ∧
    (searchFirst m5At (searchText block) = none → (parse_course_block block).outcomes = []) ∧
    (searchFirst m6At (searchText block) = none → (parse_course_block block).contents = none) := by
  refine ⟨?_, ?_, ?_, ?_, ?_, ?_, ?_⟩
  · intro h
    simp [parse_course_block, headerCode, h]
  · intro h
    constructor
    · simp [parse_course_block, schemeField, h]
    · simp [parse_course_block, creditField, h]
  · intro g hg hc
    simp [parse_course_block, creditField, hg, hc]
  · intro h
    simp [parse_course_block, prereqField, h]
  · intro h
    simp [parse_course_block, objectiveField, h]
  · intro h
    simp [parse_course_block, outcomesField, h]
  · intro h
    simp [parse_course_block, contentsField, h]

/-- Witness for C5: on an input where no pattern matches every field is
at its default, and on an input where the scheme pattern matches but the
credit-hours pattern does not, credit_hours alone stays at its
default. -/
theorem c5_witness :
    ((parse_course_block ("hello").data).code = none ∧
     (parse_course_block ("hello").data).teaching_scheme = none ∧
     (parse_course_block ("hello").data).credit_hours = none ∧
     (parse_course_block ("hello").data).prerequisite = none ∧
     (parse_course_block ("hello").data).objective = none ∧
     (parse_course_block ("hello").data).outcomes = [] ∧
     (parse_course_block ("hello").data).contents = none) ∧
    (parse_course_block ("Credit Hours and Teaching Scheme: Theory 3 Prerequisite x").data).credit_hours = none := by
  constructor
  · refine ⟨?_, ?_, ?_, ?_, ?_, ?_, ?_⟩
    · exact (c5_soft_failure _).1 (by decide)
    · exact ((c5_soft_failure _).2.1 (by decide)).1
    · exact ((c5_soft_failure _).2.1 (by decide)).2
    · exact (c5_soft_failure _).2.2.2.1 (by decide)
    · exact (c5_soft_failure _).2.2.2.2.1 (by decide)
    · exact (c5_soft_failure _).2.2.2.2.2.1 (by decide)
    · exact (c5_soft_failure _).2.2.2.2.2.2 (by decide)
  · exact (c5_soft_failure _).2.2.1 ("Theory 3 ").data (by decide) (by decide)

/-- C1 counterexample: on the end-to-end scenario input the scheme text
is captured, but credit_hours stays None, because the secondary pattern
of line 60 requires a literal Credit hours prefix before the digits and
the captured scheme text Theory 3 Lab 0 Total 3 has none; the claim
asserts credit_hours is populated. -/
theorem c1_counterexample :
    (parse_course_block ("CSE402 Computer and Cyber Security\nCredit Hours and Teaching Scheme: Theory 3 Lab 0 Total 3\nPrerequisite: CSE270\nCourse Objective: To teach security. Course Outcomes (COs): CO1 Identify threats. Course Contents Topics on cryptography.").data).teaching_scheme = some ("Theory 3 Lab 0 Total 3").data ∧
    (parse_course_block ("CSE402 Computer and Cyber Security\nCredit Hours and Teaching Scheme: Theory 3 Lab 0 Total 3\nPrerequisite: CSE270\nCourse Objective: To teach security. Course Outcomes (COs): CO1 Identify threats. Course Contents Topics on cryptography.").data).credit_hours = none := by
  decide

/-- C1 amended: on the end-to-end scenario input parse_course_block
returns exactly the claimed record except that credit_hours is None,
since the scheme text contains no Credit hours number pattern. -/
theorem c1_amended :
    parse_course_block ("CSE402 Computer and Cyber Security\nCredit Hours and Teaching Scheme: Theory 3 Lab 0 Total 3\nPrerequisite: CSE270\nCourse Objective: To teach security. Course Outcomes (COs): CO1 Identify threats. Course Contents Topics on cryptography.").data =
    { code := some ("CSE402").data
    , title := some ("Computer and Cyber Security").data
    , credit_hours := none
    , teaching_scheme := some ("Theory 3 Lab 0 Total 3").data
    , prerequisite := some ("CSE270").data
    , objective := some ("To teach security.").data
    , outcomes := [{ code := ("CO1").data, description := ("Identify threats.").data }]
    , contents := some ("Topics on cryptography.").data } := by
  decide

/-- C2 counterexample: for the input whose first line is CSE487 colon
Computer and Cyber Security, the title is not the claimed Computer and
Cyber Security: the header pattern of line 41 only skips whitespace
after the code token, so the colon separator stays in the title. -/
theorem c2_counterexample :
    firstLine ("CSE487: Computer and Cyber Security").data = ("CSE487: Computer and Cyber Security").data ∧
    (parse_course_block ("CSE487: Computer and Cyber Security").data).title ≠ some ("Computer and Cyber Security").data := by
  decide

/-- C2 amended: for every input string whose first line is CSE487 colon
Computer and Cyber Security, the code is CSE487 and the title is the
remainder of the line starting with the unconsumed colon separator. -/
theorem c2_amended (block : List Char)
    (h : firstLine block = ("CSE487: Computer and Cyber Security").data) :
    (parse_course_block block).code = some ("CSE487").data ∧
    (parse_course_block block).title = some (": Computer and Cyber Security").data := by
  constructor
  · show headerCode (firstLine block) = some ("CSE487").data
    rw [h]
    decide
  · show headerTitle (firstLine block) = some (": Computer and Cyber Security").data
    rw [h]
    decide

/-- Witness for C2 at a concrete input with the given first line. -/
theorem c2_witness :
    firstLine ("CSE487: Computer and Cyber Security").data = ("CSE487: Computer and Cyber Security").data ∧
    ((parse_course_block ("CSE487: Computer and Cyber Security").data).code = some ("CSE487").data ∧
     (parse_course_block ("CSE487: Computer and Cyber Security").data).title = some (": Computer and Cyber Security").data) :=
  ⟨by decide, c2_amended _ (by decide)⟩

theorem headerMatch_none_of_no_token {fl : List Char} (h : hasCodeToken fl = false) :
    headerMatch fl = none := by
  match fl with
  | [] => rfl
  | [a] => rfl
  | [a, b] => rfl
  | a :: b :: c :: r1 =>
    have h0 : codeTokenAt (a :: b :: c :: r1) = false := by
      cases hct : codeTokenAt (a :: b :: c :: r1) with
      | false => rfl
      | true =>
        simp only [hasCodeToken, hct, Bool.true_or] at h
        exact h
    by_cases hal : (a.isAlpha && b.isAlpha && c.isAlpha) = true
    · cases r1 with
      | nil => simp [headerMatch, hal, List.takeWhile]
      | cons d rest =>
        simp only [codeTokenAt] at h0
        rw [hal] at h0
        simp only [Bool.true_and] at h0
        simp [headerMatch, hal, List.takeWhile_cons, h0]
    · have hal2 : (a.isAlpha && b.isAlpha && c.isAlpha) = false := by
        revert hal
        cases (a.isAlpha && b.isAlpha && c.isAlpha) <;> simp
      simp [headerMatch, hal2]

/-- C7 amended: for every input string whose first line contains no
token of three letters of either case followed by a digit (the shape
the header regex of line 41 actually accepts, since it carries the
IGNORECASE flag and requires only one digit), the code field is None
and the title is the whitespace-normalized first line. -/
theorem c7_amended (block : List Char) (h : hasCodeToken (firstLine block) = false) :
    (parse_course_block block).code = none ∧
    (parse_course_block block).title = some (clean_text (firstLine block)) := by
  have hm := headerMatch_none_of_no_token h
  constructor
  · show headerCode (firstLine block) = none
    simp [headerCode, hm]
  · show headerTitle (firstLine block) = some (clean_text (firstLine block))
    simp [headerTitle, hm]

/-- Witness for C7 at a concrete input with no code-shaped token. -/
theorem c7_witness :
    hasCodeToken (firstLine ("hello there\nmore").data) = false ∧
    ((parse_course_block ("hello there\nmore").data).code = none ∧
     (parse_course_block ("hello there\nmore").data).title = some (clean_text (firstLine ("hello there\nmore").data))) :=
  ⟨by decide, c7_amended _ (by decide)⟩

/-- C7 counterexample: the first line abc12 hi contains no token of
three uppercase letters followed by two to four digits, yet the code
field is populated with abc12 and the title is hi, not the normalized
first line: the header pattern matches case-insensitively. -/
theorem c7_counterexample :
    hasUpperToken (firstLine ("abc12 hi").data) = false ∧
    (parse_course_block ("abc12 hi").data).code = some ("abc12").data ∧
    (parse_course_block ("abc12 hi").data).title = some ("hi").data := by
  decide

theorem dropPrefixCI_isSome (p l : List Char) :
    (dropPrefixCI p l).isSome = startsWithCI l p := by
  induction p generalizing l with
  | nil => cases l <;> rfl
  | cons b p ih =>
    cases l with
    | nil => rfl
    | cons c l2 =>
      by_cases hc : charIEq c b = true
      · simp [dropPrefixCI, startsWithCI, hc, ih]
      · simp [dropPrefixCI, startsWithCI, hc]

theorem searchFirst_m3_isSome (l : List Char) :
    (searchFirst m3At l).isSome = hasSubstrCI ("Prerequisite").data l := by
  induction l with
  | nil => rfl
  | cons c rest ih =>
    simp only [searchFirst, hasSubstrCI]
    cases hdp : dropPrefixCI ("Prerequisite").data (c :: rest) with
    | some r1 =>
      have hs : startsWithCI (c :: rest) ("Prerequisite").data = true := by
        rw [← dropPrefixCI_isSome, hdp]
        rfl
      simp [m3At, hdp, hs]
    | none =>
      have hs : startsWithCI (c :: rest) ("Prerequisite").data = false := by
        rw [← dropPrefixCI_isSome, hdp]
        rfl
      simp [m3At, hdp, hs, ih]

theorem startsWithCI_searchText {p : List Char}
    (hp : ∀ b ∈ p, charIEq ' ' b = false ∧ charIEq '\n' b = false) :
    ∀ l : List Char,
      startsWithCI (l.map (fun c => if c = '\n' then ' ' else c)) p = startsWithCI l p := by
  induction p with
  | nil => intro l; cases l <;> rfl
  | cons b p ih =>
    intro l
    cases l with
    | nil => rfl
    | cons c rest =>
      have hb := hp b (by simp)
      have hih := ih (fun x hx => hp x (by simp [hx])) rest
      have hchar : charIEq (if c = '\n' then ' ' else c) b = charIEq c b := by
        by_cases hc : c = '\n'
        · subst hc
          rw [if_pos rfl, hb.1, hb.2]
        · rw [if_neg hc]
      show (charIEq (if c = '\n' then ' ' else c) b &&
        startsWithCI (rest.map (fun c => if c = '\n' then ' ' else c)) p) =
        (charIEq c b && startsWithCI rest p)
      rw [hchar, hih]

theorem hasSubstrCI_map {p : List Char} {f : Char → Char}
    (hsw : ∀ m : List Char, startsWithCI (m.map f) p = startsWithCI m p) (l : List Char) :
    hasSubstrCI p (l.map f) = hasSubstrCI p l := by
  induction l with
  | nil => rfl
  | cons c rest ih =>
    simp only [List.map_cons, hasSubstrCI]
    rw [← List.map_cons, hsw (c :: rest), ih]

/-- C8: for every input string with no case-insensitive occurrence of
the label Prerequisite, parse_course_block leaves the prerequisite
field at None; the embedding is total, so no exception can be
raised. -/
theorem c8_missing_prereq (block : List Char)
    (h : hasSubstrCI ("Prerequisite").data block = false) :
    (parse_course_block block).prerequisite = none := by
  have hp : ∀ b ∈ ("Prerequisite").data, charIEq ' ' b = false ∧ charIEq '\n' b = false := by
    decide
  have hst : hasSubstrCI ("Prerequisite").data (searchText block) = false := by
    rw [show searchText block = block.map (fun c => if c = '\n' then ' ' else c) from rfl]
    rw [hasSubstrCI_map (startsWithCI_searchText hp)]
    exact h
  have hsearch : (searchFirst m3At (searchText block)).isSome = false := by
    rw [searchFirst_m3_isSome]
    exact hst
  show prereqField (searchText block) = none
  unfold prereqField
  cases hs : searchFirst m3At (searchText block) with
  | none => rfl
  | some g =>
    rw [hs] at hsearch
    simp at hsearch

/-- Witness for C8 at a concrete input without the label. -/
theorem c8_witness :
    hasSubstrCI ("Prerequisite").data ("hello").data = false ∧
    (parse_course_block ("hello").data).prerequisite = none :=
  ⟨by decide, c8_missing_prereq _ (by decide)⟩

theorem pySpace_char_cases {x : Char} (h : pySpace x = true) :
    x = ' ' ∨ x = '\t' ∨ x = '\n' ∨ x = '\r' ∨ x = '\x0b' ∨ x = '\x0c' := by
  simp only [pySpace, Bool.or_eq_true, beq_iff_eq] at h
  tauto

theorem charIEq_space_false {s0 : Char}
    (h : charIEq ' ' s0 = false ∧ charIEq '\t' s0 = false ∧ charIEq '\n' s0 = false ∧
      charIEq '\r' s0 = false ∧ charIEq '\x0b' s0 = false ∧ charIEq '\x0c' s0 = false) :
    ∀ x, pySpace x = true → charIEq x s0 = false := by
  intro x hx
  rcases pySpace_char_cases hx with rfl | rfl | rfl | rfl | rfl | rfl
  · exact h.1
  · exact h.2.1
  · exact h.2.2.1
  · exact h.2.2.2.1
  · exact h.2.2.2.2.1
  · exact h.2.2.2.2.2

theorem startsWithCI_cons_head {x : Char} {t : List Char} {s0 : Char} {s : List Char}
    (hx : charIEq x s0 = false) : startsWithCI (x :: t) (s0 :: s) = false := by
  simp [startsWithCI, hx]

theorem captureUntilCI_isSome (s0 : Char) (s : List Char) (l : List Char) :
    (captureUntilCI (s0 :: s) l).isSome = hasSubstrCI (s0 :: s) l := by
  induction l with
  | nil => rfl
  | cons c rest ih =>
    by_cases hs : startsWithCI (c :: rest) (s0 :: s) = true
    · simp [captureUntilCI, hasSubstrCI, hs]
    · have hsf : startsWithCI (c :: rest) (s0 :: s) = false := by
        revert hs
        cases startsWithCI (c :: rest) (s0 :: s) <;> simp
      rw [show captureUntilCI (s0 :: s) (c :: rest) =
          (captureUntilCI (s0 :: s) rest).map (fun t => c :: t) from by
        simp [captureUntilCI, hsf]]
      rw [show hasSubstrCI (s0 :: s) (c :: rest) =
          (startsWithCI (c :: rest) (s0 :: s) || hasSubstrCI (s0 :: s) rest) from rfl]
      rw [hsf, Bool.false_or, ← ih]
      cases captureUntilCI (s0 :: s) rest <;> rfl

theorem sub_dropWhile {s0 : Char} {s : List Char}
    (h0 : ∀ x, pySpace x = true → charIEq x s0 = false) (m : List Char) :
    hasSubstrCI (s0 :: s) (m.dropWhile pySpace) = hasSubstrCI (s0 :: s) m := by
  induction m with
  | nil => rfl
  | cons c rest ih =>
    by_cases hc : pySpace c = true
    · rw [List.dropWhile_cons]
      simp only [hc, if_true, ite_true]
      rw [ih]
      rw [show hasSubstrCI (s0 :: s) (c :: rest) =
          (startsWithCI (c :: rest) (s0 :: s) || hasSubstrCI (s0 :: s) rest) from rfl]
      rw [startsWithCI_cons_head (h0 c hc), Bool.false_or]
    · simp [List.dropWhile_cons, hc]

theorem sub_cons_skip {x : Char} {s0 : Char} {s : List Char} (t : List Char)
    (hx : charIEq x s0 = false) :
    hasSubstrCI (s0 :: s) (x :: t) = hasSubstrCI (s0 :: s) t := by
  rw [show hasSubstrCI (s0 :: s) (x :: t) =
      (startsWithCI (x :: t) (s0 :: s) || hasSubstrCI (s0 :: s) t) from rfl]
  rw [startsWithCI_cons_head hx, Bool.false_or]

theorem sub_sepSkip {s0 : Char} {s : List Char}
    (h0 : ∀ x, pySpace x = true → charIEq x s0 = false)
    (hcol : charIEq ':' s0 = false) (hhyp : charIEq '-' s0 = false) (l : List Char) :
    hasSubstrCI (s0 :: s) (sepSkip l) = hasSubstrCI (s0 :: s) l := by
  unfold sepSkip
  split
  · rename_i t heq
    rw [sub_dropWhile h0 t, ← sub_cons_skip t hcol, ← heq, sub_dropWhile h0 l]
  · rename_i t heq
    rw [sub_dropWhile h0 t, ← sub_cons_skip t hhyp, ← heq, sub_dropWhile h0 l]
  · exact sub_dropWhile h0 l

theorem searchFirst_m4_isSome (l : List Char) :
    (searchFirst m4At l).isSome = labelThenOutcomes l := by
  have hCO : ("Course Outcomes").data = 'C' :: ("ourse Outcomes").data := rfl
  have h0C : ∀ x, pySpace x = true → charIEq x 'C' = false := charIEq_space_false (by decide)
  induction l with
  | nil => rfl
  | cons c rest ih =>
    simp only [searchFirst, labelThenOutcomes]
    cases hdp : dropPrefixCI ("Course Objective").data (c :: rest) with
    | none => simp [m4At, hdp, ih]
    | some r1 =>
      have hkey : (captureUntilCI ("Course Outcomes").data (sepSkip r1)).isSome
          = hasSubstrCI ("Course Outcomes").data r1 := by
        rw [hCO, captureUntilCI_isSome, sub_sepSkip h0C (by decide) (by decide)]
      cases hc : captureUntilCI ("Course Outcomes").data (sepSkip r1) with
      | some g =>
        rw [hc] at hkey
        simp [m4At, hdp, hc, ← hkey]
      | none =>
        rw [hc] at hkey
        simp [m4At, hdp, hc, ← hkey, ih]

/-- C9: the objective field is populated exactly when the newline-
flattened text of the input contains a case-insensitive Course
Objective label followed, somewhere after the end of the label, by a
case-insensitive Course Outcomes occurrence; in particular, when no
Course Outcomes follows, the objective stays None, the capture of the
pattern of line 72 not being terminated by the end of the text. -/
theorem c9_objective_iff (block : List Char) :
    ((parse_course_block block).objective ≠ none) ↔
      labelThenOutcomes (searchText block) = true := by
  have hcore := searchFirst_m4_isSome (searchText block)
  show (objectiveField (searchText block) ≠ none) ↔ _
  unfold objectiveField
  cases hs : searchFirst m4At (searchText block) with
  | none =>
    rw [hs] at hcore
    simp only [Option.isSome_none] at hcore
    simp [← hcore]
  | some g =>
    rw [hs] at hcore
    simp only [Option.isSome_some] at hcore
    simp [← hcore]

theorem searchFirst_m2_isSome (l : List Char) :
    (searchFirst m2At l).isSome = schemeThenPrereq l := by
  have hP : ("Prerequisite").data = 'P' :: ("rerequisite").data := rfl
  have h0P : ∀ x, pySpace x = true → charIEq x 'P' = false := charIEq_space_false (by decide)
  induction l with
  | nil => rfl
  | cons c rest ih =>
    simp only [searchFirst, schemeThenPrereq]
    cases hdp : dropPrefixCI ("Credit Hours and Teaching Scheme").data (c :: rest) with
    | none => simp [m2At, hdp, ih]
    | some r1 =>
      have hkey : ∀ r2 : List Char,
          (captureUntilCI ("Prerequisite").data (r2.dropWhile pySpace)).isSome
            = hasSubstrCI ("Prerequisite").data r2 := by
        intro r2
        rw [hP, captureUntilCI_isSome, sub_dropWhile h0P]
      simp only [m2At, hdp]
      split
      · rename_i g heq
        split at heq
        · rename_i r2b heqs
          have h2 := hkey r2b
          rw [heq] at h2
          simp [← h2]
        · simp at heq
      · rename_i heq
        split at heq
        · rename_i r2b heqs
          have h2 := hkey r2b
          rw [heq] at h2
          simp [← h2, ih]
        · simp [ih]

theorem pySpace_not_digit {c : Char} (h : pySpace c = true) : c.isDigit = false := by
  rcases pySpace_char_cases h with rfl | rfl | rfl | rfl | rfl | rfl <;> decide

theorem digit_not_pySpace {c : Char} (h : c.isDigit = true) : pySpace c = false := by
  by_cases hp : pySpace c = true
  · rw [pySpace_not_digit hp] at h
    exact absurd h (by simp)
  · revert hp
    cases pySpace c <;> simp

theorem takeWhile_append_all (p : Char → Bool) (l1 l2 : List Char)
    (h1 : l1.all p = true) (h2 : ∀ c r, l2 = c :: r → p c = false) :
    (l1 ++ l2).takeWhile p = l1 ∧ (l1 ++ l2).dropWhile p = l2 := by
  induction l1 with
  | nil =>
    cases l2 with
    | nil => exact ⟨rfl, rfl⟩
    | cons c r =>
      have hc := h2 c r rfl
      constructor
      · simp [List.takeWhile_cons, hc]
      · simp [List.dropWhile_cons, hc]
  | cons a l ih =>
    rw [List.all_cons, Bool.and_eq_true] at h1
    have ih2 := ih h1.2
    constructor
    · simp [List.takeWhile_cons, h1.1, ih2.1]
    · simp [List.dropWhile_cons, h1.1, ih2.2]

theorem isCOStart_shape {m : List Char} (h : isCOStart m = true) :
    ∃ d r, m = 'C' :: 'O' :: d :: r ∧ d.isDigit = true := by
  match m with
  | [] => simp [isCOStart] at h
  | [a] => simp [isCOStart] at h
  | [a, b] => simp [isCOStart] at h
  | a :: b :: c :: r =>
    simp only [isCOStart, Bool.and_eq_true, beq_iff_eq] at h
    obtain ⟨⟨ha, hb⟩, hc⟩ := h
    subst ha
    subst hb
    exact ⟨c, r, rfl, hc⟩

theorem isCOStart_append {c : Char} {t rest : List Char}
    (h : isCOStart (c :: t) = false) (hrest : rest = [] ∨ isCOStart rest = true) :
    isCOStart (c :: (t ++ rest)) = false := by
  cases t with
  | nil =>
    rcases hrest with rfl | hco
    · exact h
    · obtain ⟨d, r, rfl, hd⟩ := isCOStart_shape hco
      simp [isCOStart]
  | cons b t2 =>
    cases t2 with
    | nil =>
      rcases hrest with rfl | hco
      · exact h
      · obtain ⟨d, r, rfl, hd⟩ := isCOStart_shape hco
        simp [isCOStart]
    | cons e t3 =>
      simpa [isCOStart] using h

theorem splitAtCO_append (t rest : List Char) (h : hasCOtoken t = false)
    (hrest : rest = [] ∨ isCOStart rest = true) :
    splitAtCO (t ++ rest) = (t, rest) := by
  induction t with
  | nil =>
    rcases hrest with rfl | hco
    · rfl
    · obtain ⟨d, r, rfl, hd⟩ := isCOStart_shape hco
      simp [splitAtCO, isCOStart, hd]
  | cons c t2 ih =>
    simp only [hasCOtoken, Bool.or_eq_false_iff] at h
    have hco0 := isCOStart_append h.1 hrest
    have ih2 := ih h.2
    rw [List.cons_append]
    simp [splitAtCO, hco0, ih2]

theorem outcomeMatchAt_none {l : List Char} (h : isCOStart l = false) :
    outcomeMatchAt l = none := by
  match l with
  | [] => rfl
  | [a] => rfl
  | a :: b :: rest =>
    by_cases hab : a = 'C' ∧ b = 'O'
    · obtain ⟨rfl, rfl⟩ := hab
      cases rest with
      | nil => rfl
      | cons d r =>
        have hd : d.isDigit = false := by
          simpa [isCOStart] using h
        simp [outcomeMatchAt, List.takeWhile_cons, hd]
    · simp [outcomeMatchAt, hab]

theorem findAllAux_cons_some {f : Nat} {c : Char} {rest : List Char}
    {t : List Char × List Char × List Char}
    (h : outcomeMatchAt (c :: rest) = some t) :
    findAllAux (f + 1) (c :: rest) = (t.1, t.2.1) :: findAllAux f t.2.2 := by
  simp [findAllAux, h]

theorem findAllAux_cons_none {f : Nat} {c : Char} {rest : List Char}
    (h : outcomeMatchAt (c :: rest) = none) :
    findAllAux (f + 1) (c :: rest) = findAllAux f rest := by
  simp [findAllAux, h]

theorem outcomeMatchAt_entry (e : COEntry) (rest : List Char) (hwf : e.wf = true)
    (hrest : rest = [] ∨ isCOStart rest = true) :
    outcomeMatchAt (e.chars ++ rest) = some ('C' :: 'O' :: e.digits, e.txt, rest) := by
  obtain ⟨ds, ws, tx⟩ := e
  simp only [COEntry.wf, Bool.and_eq_true, Bool.not_eq_true'] at hwf
  obtain ⟨⟨⟨⟨⟨hde, hda⟩, hwe⟩, hwa⟩, hct⟩, hht⟩ := hwf
  cases ds with
  | nil => simp at hde
  | cons d0 ds2 =>
  cases ws with
  | nil => simp at hwe
  | cons w0 ws2 =>
  have hw0 : pySpace w0 = true := by
    rw [List.all_cons, Bool.and_eq_true] at hwa
    exact hwa.1
  show outcomeMatchAt ('C' :: 'O' :: (((d0 :: ds2) ++ (w0 :: ws2) ++ tx) ++ rest)) =
    some ('C' :: 'O' :: (d0 :: ds2), tx, rest)
  have hassoc : ((d0 :: ds2) ++ (w0 :: ws2) ++ tx) ++ rest =
      (d0 :: ds2) ++ ((w0 :: ws2) ++ (tx ++ rest)) := by
    simp [List.append_assoc]
  rw [hassoc]
  have htw := takeWhile_append_all Char.isDigit
    (d0 :: ds2) ((w0 :: ws2) ++ (tx ++ rest)) hda
    (by
      intro c r heq
      rw [List.cons_append] at heq
      injection heq with h1 h2
      subst h1
      exact pySpace_not_digit hw0)
  have hdw := takeWhile_append_all pySpace
    (w0 :: ws2) (tx ++ rest) hwa
    (by
      intro c r heq
      cases tx with
      | cons t0 tx2 =>
        rw [List.cons_append] at heq
        injection heq with h1 h2
        subst h1
        simp only [headNotWS, Bool.not_eq_true'] at hht
        exact hht
      | nil =>
        rw [List.nil_append] at heq
        rcases hrest with rfl | hco
        · simp at heq
        · obtain ⟨d, r2, hshape, hd⟩ := isCOStart_shape hco
          rw [hshape] at heq
          injection heq with h1 h2
          subst h1
          decide)
  have hsplit := splitAtCO_append tx rest hct hrest
  simp only [outcomeMatchAt]
  rw [if_pos (And.intro trivial trivial), htw.1, htw.2, hdw.1, hdw.2, hsplit]
  simp

theorem coSpan_shape {es : List COEntry} (hwf : ∀ e ∈ es, e.wf = true) :
    coSpan es = [] ∨ isCOStart (coSpan es) = true := by
  cases es with
  | nil => exact Or.inl rfl
  | cons e es2 =>
    right
    have he := hwf e (by simp)
    obtain ⟨ds, ws, tx⟩ := e
    simp only [COEntry.wf, Bool.and_eq_true, Bool.not_eq_true'] at he
    obtain ⟨⟨⟨⟨⟨hde, hda⟩, hwe⟩, hwa⟩, hct⟩, hht⟩ := he
    cases ds with
    | nil => simp at hde
    | cons d0 ds2 =>
      have hd0 : d0.isDigit = true := by
        rw [List.all_cons, Bool.and_eq_true] at hda
        exact hda.1
      show isCOStart (('C' :: 'O' :: ((d0 :: ds2) ++ ws ++ tx)) ++ coSpan es2) = true
      simp [isCOStart, hd0]

theorem findAllAux_span :
    ∀ (fuel : Nat) (pre : List Char) (es : List COEntry),
      hasCOtoken pre = false → (∀ e ∈ es, e.wf = true) →
      (pre ++ coSpan es).length ≤ fuel →
      findAllAux fuel (pre ++ coSpan es) =
        es.map (fun e => ('C' :: 'O' :: e.digits, e.txt)) := by
  intro fuel
  induction fuel with
  | zero =>
    intro pre es hpre hwf hlen
    rw [List.length_append] at hlen
    have hpre0 : pre = [] := List.eq_nil_of_length_eq_zero (by omega)
    have hspan0 : coSpan es = [] := List.eq_nil_of_length_eq_zero (by omega)
    cases es with
    | nil => simp [hpre0, findAllAux]
    | cons e es2 => simp [coSpan, COEntry.chars] at hspan0
  | succ f ih =>
    intro pre es hpre hwf hlen
    cases pre with
    | cons c pre2 =>
      simp only [hasCOtoken, Bool.or_eq_false_iff] at hpre
      have hco0 : isCOStart (c :: (pre2 ++ coSpan es)) = false :=
        isCOStart_append hpre.1 (coSpan_shape hwf)
      have hnone := outcomeMatchAt_none hco0
      rw [List.cons_append, findAllAux_cons_none hnone]
      refine ih pre2 es hpre.2 hwf ?_
      rw [List.length_append] at hlen ⊢
      simp only [List.length_cons] at hlen
      omega
    | nil =>
      cases es with
      | nil => rfl
      | cons e es2 =>
        have he := hwf e (by simp)
        have hshape2 : coSpan es2 = [] ∨ isCOStart (coSpan es2) = true :=
          coSpan_shape (fun e2 he2 => hwf e2 (by simp [he2]))
        have hm := outcomeMatchAt_entry e (coSpan es2) he hshape2
        have hchars : COEntry.chars e ++ coSpan es2 =
            'C' :: ('O' :: ((e.digits ++ e.wsp ++ e.txt) ++ coSpan es2)) := rfl
        rw [List.nil_append] at hlen ⊢
        show findAllAux (f + 1) (COEntry.chars e ++ coSpan es2) = _
        rw [hchars] at hm ⊢
        rw [findAllAux_cons_some hm]
        have hlen2 : (coSpan es2).length ≤ f := by
          rw [show coSpan (e :: es2) = COEntry.chars e ++ coSpan es2 from rfl] at hlen
          rw [hchars, List.length_cons, List.length_cons, List.length_append] at hlen
          omega
        have ihe := ih [] es2 rfl (fun e2 he2 => hwf e2 (by simp [he2]))
          (by rw [List.nil_append]; exact hlen2)
        rw [List.nil_append] at ihe
        rw [ihe]
        simp

theorem stripWS_eq_self_of_all {l : List Char} (h : ∀ c ∈ l, pySpace c = false) :
    stripWS l = l := by
  apply stripWS_eq_self
  · cases l with
    | nil => rfl
    | cons c r => simp [headNotWS, h c (by simp)]
  · rw [← headNotWS_reverse]
    cases hr : l.reverse with
    | nil => rfl
    | cons c r =>
      have hc : c ∈ l := by
        rw [← List.mem_reverse, hr]
        simp
      simp [headNotWS, h c hc]

theorem outcomesField_span {st : List Char} {pre : List Char} {es : List COEntry}
    (hm5 : searchFirst m5At st = some (pre ++ coSpan es))
    (hpre : hasCOtoken pre = false) (hwf : ∀ e ∈ es, e.wf = true) :
    outcomesField st =
      es.map (fun e => { code := 'C' :: 'O' :: e.digits
                       , description := clean_text e.txt : Outcome }) := by
  unfold outcomesField
  rw [hm5]
  show ((findAllOutcomes (pre ++ coSpan es)).map
    (fun p => { code := stripWS p.1, description := clean_text p.2 : Outcome })) = _
  unfold findAllOutcomes
  rw [findAllAux_span (pre ++ coSpan es).length pre es hpre hwf (Nat.le_refl _)]
  rw [List.map_map]
  apply List.map_congr_left
  intro e he
  have hewf := hwf e he
  simp only [Function.comp_apply]
  have hcode : stripWS ('C' :: 'O' :: e.digits) = 'C' :: 'O' :: e.digits := by
    apply stripWS_eq_self_of_all
    intro c hc
    rcases List.mem_cons.mp hc with rfl | hc2
    · decide
    rcases List.mem_cons.mp hc2 with rfl | hc3
    · decide
    · obtain ⟨ds, ws, tx⟩ := e
      simp only [COEntry.wf, Bool.and_eq_true, Bool.not_eq_true'] at hewf
      obtain ⟨⟨⟨⟨⟨hde, hda⟩, hwe⟩, hwa⟩, hct⟩, hht⟩ := hewf
      rw [List.all_eq_true] at hda
      exact digit_not_pySpace (hda c hc3)
  rw [hcode]

/-- C3 counterexample: the input contains a case-insensitive Course
Outcomes label that is not followed by the literal parenthesised COs,
and its span holds a CO1 entry, yet the outcomes list is empty: the
pattern of line 78 requires the literal (COs) and a colon after the
label. -/
theorem c3_counterexample :
    hasSubstrCI ("Course Outcomes").data (searchText ("X\nCourse Outcomes: CO1 Identify threats.").data) = true ∧
    hasCOtoken (searchText ("X\nCourse Outcomes: CO1 Identify threats.").data) = true ∧
    (parse_course_block ("X\nCourse Outcomes: CO1 Identify threats.").data).outcomes = [] := by
  decide

/-- C3 amended: for every input whose search text makes the Course
Outcomes pattern of line 78 match — the label must be followed by
optional whitespace, the literal (COs) and a colon — with a captured
span consisting of a CO-free prefix and a sequence of well-formed CO
entries (uppercase CO token, digits, whitespace, then CO-free
description text), the outcomes list has exactly one entry per CO
token, in order of appearance, whose code is that token and whose
description is the whitespace-normalized text following it up to the
next CO token or the end of the span. -/
theorem c3_amended (block pre : List Char) (es : List COEntry)
    (hm5 : searchFirst m5At (searchText block) = some (pre ++ coSpan es))
    (hpre : hasCOtoken pre = false) (hwf : ∀ e ∈ es, e.wf = true) :
    (parse_course_block block).outcomes =
      es.map (fun e => { code := 'C' :: 'O' :: e.digits
                       , description := clean_text e.txt : Outcome }) := by
  show outcomesField (searchText block) = _
  exact outcomesField_span hm5 hpre hwf

/-- Witness for C3 at a concrete two-outcome input. -/
theorem c3_witness :
    searchFirst m5At (searchText ("X\nCourse Outcomes (COs): CO1 Do a thing. CO2 Do more. Course Contents Stuff.").data) =
      some ((" ").data ++ coSpan
        ([ ⟨("1").data, (" ").data, ("Do a thing. ").data⟩
         , ⟨("2").data, (" ").data, ("Do more. ").data⟩ ] : List COEntry)) ∧
    (parse_course_block ("X\nCourse Outcomes (COs): CO1 Do a thing. CO2 Do more. Course Contents Stuff.").data).outcomes =
      ([ ⟨("1").data, (" ").data, ("Do a thing. ").data⟩
       , ⟨("2").data, (" ").data, ("Do more. ").data⟩ ] : List COEntry).map
        (fun e => { code := 'C' :: 'O' :: e.digits
                  , description := clean_text e.txt : Outcome }) :=
  ⟨by decide,
   c3_amended ("X\nCourse Outcomes (COs): CO1 Do a thing. CO2 Do more. Course Contents Stuff.").data
     ((" ").data)
     ([ ⟨("1").data, (" ").data, ("Do a thing. ").data⟩
      , ⟨("2").data, (" ").data, ("Do more. ").data⟩ ] : List COEntry)
     (by decide) (by decide) (by decide)⟩

/-- C4 counterexample: an input whose outcomes span repeats the CO1
token produces two outcome entries with the same code, so the codes of
the outcomes list are not always pairwise distinct. -/
theorem c4_counterexample :
    ((parse_course_block ("X\nCourse Outcomes (COs): CO1 alpha CO1 beta").data).outcomes.map Outcome.code) =
      [("CO1").data, ("CO1").data] ∧
    ¬ ((parse_course_block ("X\nCourse Outcomes (COs): CO1 alpha CO1 beta").data).outcomes.map Outcome.code).Nodup := by
  decide

/-- C4 amended: the parser itself introduces no duplicate: whenever the
captured outcomes span decomposes into well-formed CO entries whose
digit strings are pairwise distinct (the single-pass document
assumption of the spec), the codes of the returned outcomes list are
pairwise distinct; they may be empty. -/
theorem c4_amended (block pre : List Char) (es : List COEntry)
    (hm5 : searchFirst m5At (searchText block) = some (pre ++ coSpan es))
    (hpre : hasCOtoken pre = false) (hwf : ∀ e ∈ es, e.wf = true)
    (hnd : (es.map COEntry.digits).Nodup) :
    ((parse_course_block block).outcomes.map Outcome.code).Nodup := by
  have h := outcomesField_span hm5 hpre hwf
  show ((outcomesField (searchText block)).map Outcome.code).Nodup
  rw [h, List.map_map]
  show (es.map (fun e => 'C' :: 'O' :: e.digits)).Nodup
  have hcomp : (fun e : COEntry => 'C' :: 'O' :: e.digits) =
      ((fun ds => 'C' :: 'O' :: ds) ∘ COEntry.digits) := rfl
  rw [hcomp, ← List.map_map]
  refine List.Nodup.map ?_ hnd
  intro x y hxy
  simpa using hxy

/-- Witness for C4 at a concrete input with two distinct CO codes. -/
theorem c4_witness :
    searchFirst m5At (searchText ("X\nCourse Outcomes (COs): CO1 alpha CO2 beta").data) =
      some ((" ").data ++ coSpan
        ([ ⟨("1").data, (" ").data, ("alpha ").data⟩
         , ⟨("2").data, (" ").data, ("beta").data⟩ ] : List COEntry)) ∧
    ((parse_course_block ("X\nCourse Outcomes (COs): CO1 alpha CO2 beta").data).outcomes.map Outcome.code).Nodup :=
  ⟨by decide,
   c4_amended ("X\nCourse Outcomes (COs): CO1 alpha CO2 beta").data
     ((" ").data)
     ([ ⟨("1").data, (" ").data, ("alpha ").data⟩
      , ⟨("2").data, (" ").data, ("beta").data⟩ ] : List COEntry)
     (by decide) (by decide) (by decide) (by decide)⟩

/-- C10: the teaching_scheme field is populated exactly when the
newline-flattened text contains a case-insensitive Credit Hours and
Teaching Scheme label followed by optional whitespace and a colon, with
a case-insensitive Prerequisite occurrence somewhere after the colon;
when that fails, teaching_scheme and credit_hours both stay None even
if the label itself is present, the lazy capture of line 54 having no
end-of-text alternative. -/
theorem c10_scheme_iff (block : List Char) :
    (((parse_course_block block).teaching_scheme ≠ none) ↔
      schemeThenPrereq (searchText block) = true) ∧
    (schemeThenPrereq (searchText block) = false →
      (parse_course_block block).teaching_scheme = none ∧
      (parse_course_block block).credit_hours = none) := by
  have hcore := searchFirst_m2_isSome (searchText block)
  constructor
  · show (schemeField (searchText block) ≠ none) ↔ _
    unfold schemeField
    cases hs : searchFirst m2At (searchText block) with
    | none =>
      rw [hs] at hcore
      simp only [Option.isSome_none] at hcore
      simp [← hcore]
    | some g =>
      rw [hs] at hcore
      simp only [Option.isSome_some] at hcore
      simp [← hcore]
  · intro hfalse
    cases hs : searchFirst m2At (searchText block) with
    | none =>
      constructor
      · show schemeField (searchText block) = none
        unfold schemeField
        rw [hs]
        rfl
      · show creditField (searchText block) = none
        unfold creditField
        rw [hs]
    | some g =>
      rw [hs, hfalse] at hcore
      simp at hcore

/-- Witness for C10 at an input that has the Credit Hours and Teaching
Scheme label but no Prerequisite after it. -/
theorem c10_witness :
    schemeThenPrereq (searchText ("Credit Hours and Teaching Scheme: Theory 3").data) = false ∧
    ((parse_course_block ("Credit Hours and Teaching Scheme: Theory 3").data).teaching_scheme = none ∧
     (parse_course_block ("Credit Hours and Teaching Scheme: Theory 3").data).credit_hours = none) :=
  ⟨by decide, (c10_scheme_iff (("Credit Hours and Teaching Scheme: Theory 3").data)).2 (by decide)⟩
